import Mathlib

/-!
Verification of the bread snapshot manager's core against its specification.

The definitions below are a shallow embedding of the Python sources:
  * src/bread/lib.py          (snapshot table, kernel backup tracker, fstab guard)
  * src/bread/cli/snapshot.py (snapshot cycle, retention engine)
  * src/bread/cli/rollback.py (rollback engine)
  * src/bread/cli/revert.py   (revert engine)
Filesystem state is passed explicitly; external btrfs/boot operations are
modelled through explicit success oracles where the code can observe failure.
-/

namespace Bread

/-! ## Retention policy engine (src/bread/cli/snapshot.py, prune_snapshots)

`get_snapshots` parses every directory entry `<subvol>.<ts>` into a
`datetime` and returns the list sorted newest-first.  A snapshot entry is
modelled as the pair (parsed datetime, full path), exactly the tuples the
Python code manipulates. -/

/-- A parsed timestamp, mirroring the fields of a Python `datetime`. -/
structure DT where
  year : Nat
  month : Nat
  day : Nat
  hour : Nat
  minute : Nat
  second : Nat
deriving DecidableEq, Repr

/-- One entry of `get_snapshots`' result: (datetime, full path). -/
abbrev Snap := DT × String

/-- The four non-negative retention counts from the configuration
(`CONF["retention"]`). -/
structure Retention where
  hourly : Nat
  daily : Nat
  weekly : Nat
  monthly : Nat
deriving DecidableEq, Repr

/-- Python `datetime` comparison (lexicographic on the fields). -/
def DT.leB (a b : DT) : Bool :=
  if a.year ≠ b.year then a.year < b.year
  else if a.month ≠ b.month then a.month < b.month
  else if a.day ≠ b.day then a.day < b.day
  else if a.hour ≠ b.hour then a.hour < b.hour
  else if a.minute ≠ b.minute then a.minute < b.minute
  else a.second ≤ b.second

/-- Zero-pad a number to two digits, as `strftime` does for `%m` `%d` `%H`. -/
def pad2 (n : Nat) : String :=
  if n < 10 then "0" ++ toString n else toString n

/-- Zero-pad a number to four digits, as `strftime` does for `%Y`. -/
def pad4 (n : Nat) : String :=
  if n < 10 then "000" ++ toString n
  else if n < 100 then "00" ++ toString n
  else if n < 1000 then "0" ++ toString n
  else toString n

/-- Bucket key of the hourly pass: `d.strftime("%Y%m%d%H")`. -/
def hourKey (d : DT) : String :=
  pad4 d.year ++ pad2 d.month ++ pad2 d.day ++ pad2 d.hour

/-- Bucket key of the daily pass: `d.strftime("%Y%m%d")`. -/
def dayKey (d : DT) : String :=
  pad4 d.year ++ pad2 d.month ++ pad2 d.day

/-- Bucket key of the monthly pass: `d.strftime("%Y%m")`. -/
def monthKey (d : DT) : String :=
  pad4 d.year ++ pad2 d.month

/-- Gregorian leap year rule used by Python's `datetime`. -/
def isLeap (y : Nat) : Bool :=
  (y % 4 == 0 && y % 100 != 0) || y % 400 == 0

/-- Days in a month of the proleptic Gregorian calendar. -/
def daysInMonth (y m : Nat) : Nat :=
  if m = 2 then (if isLeap y then 29 else 28)
  else if m = 4 ∨ m = 6 ∨ m = 9 ∨ m = 11 then 30
  else 31

/-- Days in the months strictly before month `m` of year `y`. -/
def daysBeforeMonth (y m : Nat) : Nat :=
  (List.range (m - 1)).foldl (fun acc i => acc + daysInMonth y (i + 1)) 0

/-- `datetime.toordinal`: day number with 0001-01-01 as day 1. -/
def toOrdinal (y m d : Nat) : Int :=
  365 * ((y : Int) - 1) + ((y : Int) - 1).fdiv 4 - ((y : Int) - 1).fdiv 100
    + ((y : Int) - 1).fdiv 400 + (daysBeforeMonth y m : Int) + (d : Int)

/-- CPython's `_isoweek1monday`: ordinal of the Monday starting ISO week 1. -/
def isoWeek1Monday (y : Nat) : Int :=
  let firstday := toOrdinal y 1 1
  let firstweekday := (firstday + 6).emod 7
  let w1m := firstday - firstweekday
  if firstweekday > 3 then w1m + 7 else w1m

/-- `datetime.isocalendar()` restricted to (ISO year, ISO week). -/
def isoCalendar (dt : DT) : Int × Int :=
  let today := toOrdinal dt.year dt.month dt.day
  let w := (today - isoWeek1Monday dt.year).fdiv 7
  if w < 0 then
    ((dt.year : Int) - 1, (today - isoWeek1Monday (dt.year - 1)).fdiv 7 + 1)
  else if 52 ≤ w ∧ isoWeek1Monday (dt.year + 1) ≤ today then
    ((dt.year : Int) + 1, 1)
  else ((dt.year : Int), w + 1)

/-- Bucket key of the weekly pass:
`f"(isocalendar[0])-(isocalendar[1])"` (ISO week-year, dash, ISO week). -/
def weekKey (d : DT) : String :=
  toString (isoCalendar d).1 ++ "-" ++ toString (isoCalendar d).2

/-- The inner `add_bucket` closure of `prune_snapshots`: walk the
newest-first history, carrying the set `seen` of bucket keys already kept
and the number `kept` of entries this pass has kept; keep an entry iff its
bucket key is new and `kept < count`. -/
def add_bucket (key : DT → String) (count : Nat) :
    List Snap → List String → Nat → List String
  | [], _, _ => []
  | s :: rest, seen, kept =>
    if key s.1 ∉ seen ∧ kept < count then
      s.2 :: add_bucket key count rest (key s.1 :: seen) (kept + 1)
    else
      add_bucket key count rest seen kept

/-- `keep_paths` as computed by `prune_snapshots`: the newest entry is added
unconditionally, then the four granularity passes each run over the whole
history with their own empty `seen` set and zero counter. -/
def keep_paths (r : Retention) : List Snap → List String
  | [] => []
  | s0 :: rest =>
    s0.2 :: (add_bucket hourKey r.hourly (s0 :: rest) [] 0
      ++ add_bucket dayKey r.daily (s0 :: rest) [] 0
      ++ add_bucket weekKey r.weekly (s0 :: rest) [] 0
      ++ add_bucket monthKey r.monthly (s0 :: rest) [] 0)

/-- The entries `prune_snapshots` attempts to delete: everything whose path
is not in `keep_paths`. -/
def evicted (r : Retention) (snaps : List Snap) : List Snap :=
  snaps.filter (fun s => decide (s.2 ∉ keep_paths r snaps))

/-- The history that survives a prune in which every delete succeeds:
the directory keeps exactly the kept paths, in unchanged relative order. -/
def afterPrune (r : Retention) (snaps : List Snap) : List Snap :=
  snaps.filter (fun s => decide (s.2 ∈ keep_paths r snaps))

theorem add_bucket_cons (key : DT → String) (count : Nat) (s : Snap)
    (rest : List Snap) (seen : List String) (kept : Nat) :
    add_bucket key count (s :: rest) seen kept =
      if key s.1 ∉ seen ∧ kept < count then
        s.2 :: add_bucket key count rest (key s.1 :: seen) (kept + 1)
      else
        add_bucket key count rest seen kept := rfl

theorem add_bucket_of_count_le (key : DT → String) (count : Nat)
    (L : List Snap) : ∀ (seen : List String) (kept : Nat), count ≤ kept →
    add_bucket key count L seen kept = [] := by
  induction L with
  | nil => intro seen kept _; rfl
  | cons s rest ih =>
    intro seen kept h
    rw [add_bucket_cons, if_neg, ih seen kept h]
    rintro ⟨-, hlt⟩
    exact absurd h (not_le.mpr hlt)

theorem add_bucket_subset (key : DT → String) (count : Nat) (L : List Snap) :
    ∀ (seen : List String) (kept : Nat) (p : String),
    p ∈ add_bucket key count L seen kept → p ∈ L.map Prod.snd := by
  induction L with
  | nil => intro seen kept p h; exact absurd h (List.not_mem_nil p)
  | cons s rest ih =>
    intro seen kept p h
    rw [add_bucket_cons] at h
    by_cases hc : key s.1 ∉ seen ∧ kept < count
    · rw [if_pos hc] at h
      rcases List.mem_cons.mp h with h1 | h2
      · exact List.mem_cons.mpr (Or.inl h1)
      · exact List.mem_cons.mpr (Or.inr (ih _ _ p h2))
    · rw [if_neg hc] at h
      exact List.mem_cons.mpr (Or.inr (ih _ _ p h))

theorem add_bucket_mono (key : DT → String) (count : Nat)
    {L L' : List Snap} (h : List.Sublist L' L)
    (hnd : (L.map Prod.snd).Nodup) :
    ∀ {seen seen' : List String}, seen' ⊆ seen → seen'.Nodup →
    ∀ {e : Snap}, e ∈ L' →
    e.2 ∈ add_bucket key count L seen seen.length →
    e.2 ∈ add_bucket key count L' seen' seen'.length := by
  induction h with
  | slnil =>
    intro seen seen' _ _ e he _
    exact absurd he (List.not_mem_nil e)
  | cons a h ih =>
    rename_i L' L
    intro seen seen' hsub hnd' e he hm
    rw [List.map_cons, List.nodup_cons] at hnd
    rw [add_bucket_cons] at hm
    by_cases hc : key a.1 ∉ seen ∧ seen.length < count
    · rw [if_pos hc] at hm
      rcases List.mem_cons.mp hm with h1 | h2
      · exact absurd (h1 ▸ List.mem_map_of_mem Prod.snd (h.subset he)) hnd.1
      · have hsub2 : seen' ⊆ key a.1 :: seen :=
          fun x hx => List.mem_cons.mpr (Or.inr (hsub hx))
        have h2' : e.2 ∈ add_bucket key count L (key a.1 :: seen)
            (key a.1 :: seen).length := by
          rw [List.length_cons]; exact h2
        exact ih hnd.2 hsub2 hnd' he h2'
    · rw [if_neg hc] at hm
      exact ih hnd.2 hsub hnd' he hm
  | cons₂ a h ih =>
    rename_i L' L
    intro seen seen' hsub hnd' e he hm
    rw [List.map_cons, List.nodup_cons] at hnd
    rw [add_bucket_cons] at hm
    have hlen : seen'.length ≤ seen.length :=
      (hnd'.subperm hsub).length_le
    rw [add_bucket_cons]
    by_cases hc : key a.1 ∉ seen ∧ seen.length < count
    · have hc' : key a.1 ∉ seen' ∧ seen'.length < count :=
        ⟨fun hx => hc.1 (hsub hx), lt_of_le_of_lt hlen hc.2⟩
      rw [if_pos hc]  at hm
      rw [if_pos hc']
      rcases List.mem_cons.mp he with rfl | heL'
      · exact List.mem_cons.mpr (Or.inl rfl)
      rcases List.mem_cons.mp hm with h1 | h2
      · exact absurd (h1 ▸ List.mem_map_of_mem Prod.snd (h.subset heL')) hnd.1
      · have hsub2 : key a.1 :: seen' ⊆ key a.1 :: seen :=
          List.cons_subset_cons _ hsub
        have hnd2 : (key a.1 :: seen').Nodup :=
          List.nodup_cons.mpr ⟨hc'.1, hnd'⟩
        have h2' : e.2 ∈ add_bucket key count L (key a.1 :: seen)
            (key a.1 :: seen).length := by
          rw [List.length_cons]; exact h2
        have := ih hnd.2 hsub2 hnd2 heL' h2'
        rw [List.length_cons] at this
        exact List.mem_cons.mpr (Or.inr this)
    · rw [if_neg hc] at hm
      by_cases hcnt : count ≤ seen.length
      · rw [add_bucket_of_count_le key count L seen seen.length hcnt] at hm
        exact absurd hm (List.not_mem_nil _)
      have hks : key a.1 ∈ seen := by
        by_contra hx
        exact hc ⟨hx, lt_of_not_le hcnt⟩
      rcases List.mem_cons.mp he with rfl | heL'
      · exact absurd (add_bucket_subset key count L seen seen.length e.2 hm) hnd.1
      by_cases hc' : key a.1 ∉ seen' ∧ seen'.length < count
      · rw [if_pos hc']
        have hsub2 : key a.1 :: seen' ⊆ seen :=
          fun x hx => by
            rcases List.mem_cons.mp hx with rfl | hx2
            · exact hks
            · exact hsub hx2
        have hnd2 : (key a.1 :: seen').Nodup :=
          List.nodup_cons.mpr ⟨hc'.1, hnd'⟩
        have := ih hnd.2 hsub2 hnd2 heL' hm
        rw [List.length_cons] at this
        exact List.mem_cons.mpr (Or.inr this)
      · rw [if_neg hc']
        exact ih hnd.2 hsub hnd' heL' hm

/-- C6: running the retention prune a second time on the history that
survived the first run (no entries added in between, every delete of the
first run succeeded) evicts nothing: the kept set is a fixed point of the
retention computation.  Paths are pairwise distinct, being filenames of one
directory. -/
theorem prune_snapshots_idempotent (r : Retention) (snaps : List Snap)
    (hnd : (snaps.map Prod.snd).Nodup) :
    evicted r (afterPrune r snaps) = [] := by
  rw [evicted, List.filter_eq_nil_iff]
  intro e heL'
  simp only [decide_eq_true_eq, not_not]
  cases snaps with
  | nil =>
    rw [afterPrune, List.filter_nil] at heL'
    exact absurd heL' (List.not_mem_nil e)
  | cons s0 rest =>
    have hs0 : s0.2 ∈ keep_paths r (s0 :: rest) := by
      rw [keep_paths]; exact List.mem_cons_self _ _
    have hL' : afterPrune r (s0 :: rest)
        = s0 :: rest.filter
          (fun s => decide (s.2 ∈ keep_paths r (s0 :: rest))) := by
      rw [afterPrune, List.filter_cons, if_pos (decide_eq_true hs0)]
    have hsubL : List.Sublist (afterPrune r (s0 :: rest)) (s0 :: rest) := by
      rw [afterPrune]; exact List.filter_sublist _
    rw [afterPrune] at heL'
    obtain ⟨heS, hdec⟩ := List.mem_filter.mp heL'
    have hK : e.2 ∈ keep_paths r (s0 :: rest) := of_decide_eq_true hdec
    rw [keep_paths] at hK
    have heL2 : e ∈ afterPrune r (s0 :: rest) := by
      rw [afterPrune]; exact heL'
    rw [hL'] at hsubL heL2 ⊢
    rw [keep_paths]
    rcases List.mem_cons.mp hK with h0 | hrest
    · exact List.mem_cons.mpr (Or.inl h0)
    refine List.mem_cons.mpr (Or.inr ?_)
    have hnilsub : ([] : List String) ⊆ ([] : List String) := fun x hx => hx
    simp only [List.mem_append] at hrest ⊢
    rcases hrest with ((hh | hd) | hw) | hm
    · exact Or.inl (Or.inl (Or.inl
        (add_bucket_mono hourKey r.hourly hsubL hnd hnilsub List.nodup_nil
          heL2 hh)))
    · exact Or.inl (Or.inl (Or.inr
        (add_bucket_mono dayKey r.daily hsubL hnd hnilsub List.nodup_nil
          heL2 hd)))
    · exact Or.inl (Or.inr
        (add_bucket_mono weekKey r.weekly hsubL hnd hnilsub List.nodup_nil
          heL2 hw))
    · exact Or.inr
        (add_bucket_mono monthKey r.monthly hsubL hnd hnilsub List.nodup_nil
          heL2 hm)

/-! ### Declarative reading of one retention pass (spec wording)

The spec describes a pass as: walking newest-first, keep the first entry
encountered in each distinct bucket key, capped at the configured count.
`spec_bucket_keep` renders that wording directly: list the distinct bucket
keys in order of first encounter, cap that list at `count`, and for each
surviving key keep the first (newest) entry of that bucket. -/

/-- Distinct bucket keys of a history, in order of first encounter. -/
def keysInOrder (key : DT → String) : List Snap → List String
  | [] => []
  | s :: rest =>
    key s.1 ::
      keysInOrder key (rest.filter (fun t => decide (key t.1 ≠ key s.1)))
termination_by l => l.length
decreasing_by exact Nat.lt_succ_of_le (List.length_filter_le _ _)

/-- The first (newest) entry of bucket `k`, if the bucket is inhabited. -/
def firstInBucket (key : DT → String) (k : String) (L : List Snap) :
    Option String :=
  (L.find? (fun s => decide (key s.1 = k))).map Prod.snd

/-- Spec-side pass: first entry of each of the first `count` distinct
bucket keys, walking newest-first. -/
def spec_bucket_keep (key : DT → String) (count : Nat) (L : List Snap) :
    List String :=
  ((keysInOrder key L).take count).filterMap (fun k => firstInBucket key k L)

theorem keysInOrder_cons (key : DT → String) (s : Snap) (rest : List Snap) :
    keysInOrder key (s :: rest) =
      key s.1 ::
        keysInOrder key (rest.filter (fun t => decide (key t.1 ≠ key s.1))) := by
  rw [keysInOrder]

theorem keysInOrder_subset_aux (key : DT → String) (n : Nat) :
    ∀ (M : List Snap), M.length ≤ n →
      keysInOrder key M ⊆ M.map (fun s => key s.1) := by
  induction n with
  | zero =>
    intro M hM
    rw [List.length_eq_zero.mp (Nat.le_zero.mp hM), keysInOrder]
    exact fun x hx => hx
  | succ n ih =>
    intro M hM
    cases M with
    | nil => rw [keysInOrder]; exact fun x hx => hx
    | cons s rest =>
      rw [keysInOrder_cons]
      intro k hk
      rcases List.mem_cons.mp hk with rfl | hk2
      · exact List.mem_cons.mpr (Or.inl rfl)
      · have hlen : (rest.filter
            (fun t => decide (key t.1 ≠ key s.1))).length ≤ n :=
          le_trans (List.length_filter_le _ _)
            (Nat.lt_succ_iff.mp (lt_of_lt_of_le (Nat.lt_succ_of_le le_rfl)
              (by rw [List.length_cons] at hM; exact hM)))
        have hmem := ih _ hlen hk2
        exact List.mem_cons.mpr (Or.inr
          (List.map_subset _ (List.filter_subset' _) hmem))

theorem keysInOrder_subset (key : DT → String) (M : List Snap) :
    keysInOrder key M ⊆ M.map (fun s => key s.1) :=
  keysInOrder_subset_aux key M.length M le_rfl

theorem find?_filter_of {α : Type} (p q : α → Bool)
    (h : ∀ x, p x = true → q x = true) :
    ∀ (l : List α), (l.filter q).find? p = l.find? p := by
  intro l
  induction l with
  | nil => rfl
  | cons b l ih =>
    by_cases hq : q b = true
    · rw [List.filter_cons, if_pos hq]
      by_cases hp : p b = true
      · rw [List.find?_cons_of_pos _ hp, List.find?_cons_of_pos _ hp]
      · rw [List.find?_cons_of_neg _ hp, List.find?_cons_of_neg _ hp]
        exact ih
    · have hp : ¬ p b = true := fun hpb => hq (h b hpb)
      rw [List.filter_cons, if_neg hq, List.find?_cons_of_neg _ hp]
      exact ih

theorem spec_bucket_keep_zero (key : DT → String) (M : List Snap) :
    spec_bucket_keep key 0 M = [] := by
  rw [spec_bucket_keep, List.take_zero, List.filterMap_nil]

theorem add_bucket_eq_spec_aux (key : DT → String) (count : Nat) :
    ∀ (L : List Snap) (seen : List String) (kept : Nat),
      add_bucket key count L seen kept =
        spec_bucket_keep key (count - kept)
          (L.filter (fun t => decide (key t.1 ∉ seen))) := by
  intro L
  induction L with
  | nil =>
    intro seen kept
    rw [List.filter_nil, spec_bucket_keep, keysInOrder, List.take_nil,
      List.filterMap_nil]
    rfl
  | cons a rest ih =>
    intro seen kept
    by_cases hmem : key a.1 ∈ seen
    · have h1 : add_bucket key count (a :: rest) seen kept
          = add_bucket key count rest seen kept := by
        rw [add_bucket_cons, if_neg]
        rintro ⟨hns, -⟩
        exact hns hmem
      have h2 : (a :: rest).filter (fun t => decide (key t.1 ∉ seen))
          = rest.filter (fun t => decide (key t.1 ∉ seen)) := by
        rw [List.filter_cons, if_neg]
        simpa using hmem
      rw [h1, h2]
      exact ih seen kept
    · have h2 : (a :: rest).filter (fun t => decide (key t.1 ∉ seen))
          = a :: rest.filter (fun t => decide (key t.1 ∉ seen)) := by
        rw [List.filter_cons, if_pos]
        simpa using hmem
      by_cases hcnt : kept < count
      · have h1 : add_bucket key count (a :: rest) seen kept
            = a.2 :: add_bucket key count rest (key a.1 :: seen) (kept + 1) :=
          by rw [add_bucket_cons, if_pos (And.intro hmem hcnt)]
        have hck : count - kept = (count - (kept + 1)) + 1 := by omega
        rw [h1, h2, spec_bucket_keep, keysInOrder_cons, hck,
          List.take_succ_cons, List.filterMap_cons]
        have hhead : firstInBucket key (key a.1)
            (a :: rest.filter (fun t => decide (key t.1 ∉ seen)))
            = some a.2 := by
          rw [firstInBucket, List.find?_cons_of_pos _ (by simp)]
          rfl
        rw [hhead]
        congr 1
        rw [ih (key a.1 :: seen) (kept + 1)]
        have hff : (rest.filter (fun t => decide (key t.1 ∉ seen))).filter
              (fun t => decide (key t.1 ≠ key a.1))
            = rest.filter (fun t => decide (key t.1 ∉ key a.1 :: seen)) := by
          rw [List.filter_filter]
          apply List.filter_congr
          intro t _
          simp only [List.mem_cons, not_or, Bool.decide_and]
        rw [spec_bucket_keep, ← hff]
        apply List.filterMap_congr
        intro k hk
        have hk2 := List.take_subset _ _ hk
        have hknot : k ≠ key a.1 := by
          have hmap := keysInOrder_subset key _ hk2
          obtain ⟨t, ht, rfl⟩ := List.mem_map.mp hmap
          have hQ := (List.mem_filter.mp ht).2
          exact of_decide_eq_true hQ
        have hka : ¬ (key a.1 = k) := fun h => hknot h.symm
        rw [firstInBucket, firstInBucket,
          List.find?_cons_of_neg _ (by simpa using hka),
          find?_filter_of _ _ (fun x hx => by
            have hxk : key x.1 = k := of_decide_eq_true hx
            exact decide_eq_true (fun hcon => hknot (hxk.symm.trans hcon)))]
      · have h1 : add_bucket key count (a :: rest) seen kept
            = add_bucket key count rest seen kept := by
          rw [add_bucket_cons, if_neg]
          rintro ⟨-, hlt⟩
          exact hcnt hlt
        rw [h1, h2, ih seen kept]
        have h0 : count - kept = 0 := by omega
        rw [h0, spec_bucket_keep_zero, spec_bucket_keep_zero]

theorem add_bucket_eq_spec (key : DT → String) (count : Nat) (L : List Snap) :
    add_bucket key count L [] 0 = spec_bucket_keep key count L := by
  rw [add_bucket_eq_spec_aux key count L [] 0, Nat.sub_zero]
  congr 1
  apply List.filter_eq_self.mpr
  intro t _
  simp

/-- C4: for a non-empty newest-first history, the kept set of
`prune_snapshots` is exactly the union, over the four granularities
(hour, day, ISO week, month), of the first entry of each distinct bucket
key capped at that granularity's count, plus unconditionally the single
most recent entry; and with all four counts at 0 it is exactly the most
recent entry. -/
theorem prune_keep_characterization (r : Retention) (s0 : Snap)
    (rest : List Snap) :
    (∀ p : String, p ∈ keep_paths r (s0 :: rest) ↔
      p = s0.2
      ∨ p ∈ spec_bucket_keep hourKey r.hourly (s0 :: rest)
      ∨ p ∈ spec_bucket_keep dayKey r.daily (s0 :: rest)
      ∨ p ∈ spec_bucket_keep weekKey r.weekly (s0 :: rest)
      ∨ p ∈ spec_bucket_keep monthKey r.monthly (s0 :: rest))
    ∧ keep_paths (Retention.mk 0 0 0 0) (s0 :: rest) = [s0.2] := by
  constructor
  · intro p
    rw [keep_paths, add_bucket_eq_spec, add_bucket_eq_spec,
      add_bucket_eq_spec, add_bucket_eq_spec]
    simp only [List.mem_cons, List.mem_append, or_assoc]
  · rw [keep_paths,
      add_bucket_of_count_le hourKey 0 (s0 :: rest) [] 0 le_rfl,
      add_bucket_of_count_le dayKey 0 (s0 :: rest) [] 0 le_rfl,
      add_bucket_of_count_le weekKey 0 (s0 :: rest) [] 0 le_rfl,
      add_bucket_of_count_le monthKey 0 (s0 :: rest) [] 0 le_rfl]
    rfl

/-! ## Naming codec and snapshot table builder (src/bread/lib.py)

`build_snapshot_table` lists the snapshot directory, skips dotfiles,
matches each name against the regex
`^(.+)\.(\d8T(\d6|\d4))$` (greedy stem, so the shortest timestamp
suffix wins), validates the timestamp with `datetime.strptime` under the
formats `%Y%m%dT%H%M%S` and `%Y%m%dT%H%M`, groups by timestamp and sorts.
Filenames are modelled as their character lists where convenient. -/

/-- Numeric value of a digit character. -/
def dval (c : Char) : Nat := c.toNat - 48

/-- Does a 13-character list match `\d8 T \d4`? -/
def pat13 (l : List Char) : Bool :=
  match l with
  | [a, b, c, d, e, f, g, h, t, p, q, u, v] =>
    a.isDigit && b.isDigit && c.isDigit && d.isDigit && e.isDigit
      && f.isDigit && g.isDigit && h.isDigit && (t == 'T') && p.isDigit
      && q.isDigit && u.isDigit && v.isDigit
  | _ => false

/-- Does a 15-character list match `\d8 T \d6`? -/
def pat15 (l : List Char) : Bool :=
  match l with
  | [a, b, c, d, e, f, g, h, t, p, q, u, v, w, x] =>
    a.isDigit && b.isDigit && c.isDigit && d.isDigit && e.isDigit
      && f.isDigit && g.isDigit && h.isDigit && (t == 'T') && p.isDigit
      && q.isDigit && u.isDigit && v.isDigit && w.isDigit && x.isDigit
  | _ => false

/-- One candidate split of the greedy regex: a timestamp suffix of length
`k` matching `pat`, preceded by a literal dot, preceded by a non-empty
stem. -/
def trySplit (k : Nat) (pat : List Char → Bool) (cs : List Char) :
    Option (List Char × List Char) :=
  if k + 2 ≤ cs.length ∧ pat (cs.drop (cs.length - k)) = true
      ∧ (cs.drop (cs.length - (k + 1))).head? = some '.' then
    some (cs.take (cs.length - (k + 1)), cs.drop (cs.length - k))
  else none

/-- The regex match of `build_snapshot_table` and `prune_kernel_backups`:
`^(.+)\.(\d8T(\d6|\d4))$`.  The greedy `.+` makes the 13-character
timestamp suffix take precedence over the 15-character one (the two can
never both match the same name, so the order is immaterial). -/
def tsSuffixSplit (cs : List Char) : Option (List Char × List Char) :=
  match trySplit 13 pat13 cs with
  | some r => some r
  | none => trySplit 15 pat15 cs

/-- Is the 8-character date part `YYYYMMDD` a real proleptic-Gregorian
date, as `datetime.strptime` requires (year ≥ 1, month 01-12, day within
the month)? -/
def validDate (a b c d e f g h : Char) : Bool :=
  let y := ((dval a * 10 + dval b) * 10 + dval c) * 10 + dval d
  let mo := dval e * 10 + dval f
  let da := dval g * 10 + dval h
  decide (1 ≤ y) && decide (1 ≤ mo) && decide (mo ≤ 12) && decide (1 ≤ da)
    && decide (da ≤ daysInMonth y mo)

/-- Acceptance of a regex-matched timestamp by the `strptime` loop of
`build_snapshot_table` (formats `%Y%m%dT%H%M%S`, then `%Y%m%dT%H%M`).
For a 6-digit time the split is HH MM SS with hour ≤ 23, minute ≤ 59,
second ≤ 59.  For a 4-digit time CPython's strptime is more liberal: the
`%H` `%M` `%S` directives each consume one or two digits greedily, so
digits `pquv` are accepted unless `pq > 23` while `q ≥ 6` and `u ≥ 6`
(verified exhaustively against CPython).  Only called on lists that
already match `pat13` or `pat15`. -/
def validTs (ts : List Char) : Bool :=
  match ts with
  | [a, b, c, d, e, f, g, h, _, p, q, u, _, w, _] =>
    validDate a b c d e f g h && decide (dval p * 10 + dval q ≤ 23)
      && decide (dval u ≤ 5) && decide (dval w ≤ 5)
  | [a, b, c, d, e, f, g, h, _, p, q, u, _] =>
    validDate a b c d e f g h
      && (decide (dval p * 10 + dval q ≤ 23) || decide (dval q ≤ 5)
        || decide (dval u ≤ 5))
  | _ => false

/-- The treatment of one directory entry by `build_snapshot_table`:
skip dotfiles, apply the regex, validate the timestamp; yields the
(subvolume, timestamp) pair of a well-formed snapshot entry name. -/
def decodeEntry (f : String) : Option (String × String) :=
  if f.data.head? = some '.' then none
  else
    match tsSuffixSplit f.data with
    | none => none
    | some (s, ts) =>
      if validTs ts then some (String.mk s, String.mk ts) else none

/-- First-occurrence deduplication: the distinct keys of the
`defaultdict(list)` used to group entries by timestamp. -/
def dedupF : List String → List String
  | [] => []
  | x :: xs => x :: dedupF (xs.filter (fun y => decide (y ≠ x)))
termination_by l => l.length
decreasing_by exact Nat.lt_succ_of_le (List.length_filter_le _ _)

/-- `build_snapshot_table` (lib.py): returns `[]` when the snapshot
directory does not exist; otherwise decodes every entry, groups by
timestamp and returns `(timestamp, sorted subvolume list)` pairs sorted
by timestamp ascending. -/
def build_snapshot_table (snapDirExists : Bool) (fnames : List String) :
    List (String × List String) :=
  if snapDirExists then
    let parsed := fnames.filterMap decodeEntry
    let keys := List.insertionSort (· ≤ ·) (dedupF (parsed.map Prod.snd))
    keys.map (fun ts =>
      (ts, List.insertionSort (· ≤ ·)
        (parsed.filterMap (fun p => if p.2 = ts then some p.1 else none))))
  else []

theorem trySplit_eq {k : Nat} {pat : List Char → Bool} {cs s ts : List Char}
    (h : trySplit k pat cs = some (s, ts)) :
    cs = s ++ '.' :: ts ∧ s ≠ [] := by
  rw [trySplit] at h
  split at h
  case isFalse => exact absurd h (by simp)
  case isTrue hc =>
    obtain ⟨hk, -, hdot⟩ := hc
    injection h with h1
    have hs : s = cs.take (cs.length - (k + 1)) := (Prod.mk.injEq _ _ _ _ |>.mp h1.symm).1
    have hts : ts = cs.drop (cs.length - k) := (Prod.mk.injEq _ _ _ _ |>.mp h1.symm).2
    have hdrop : cs.drop (cs.length - (k + 1)) = '.' :: cs.drop (cs.length - k) := by
      cases hd : cs.drop (cs.length - (k + 1)) with
      | nil => rw [hd] at hdot; exact absurd hdot (by simp)
      | cons c t =>
        rw [hd] at hdot
        have hc' : c = '.' := by
          simpa using hdot
        have ht : t = cs.drop (cs.length - k) := by
          have htail := List.tail_drop cs (cs.length - (k + 1))
          rw [hd] at htail
          have harith : cs.length - (k + 1) + 1 = cs.length - k := by omega
          rw [harith] at htail
          exact htail
        rw [hc', ht]
    constructor
    · conv_lhs => rw [← List.take_append_drop (cs.length - (k + 1)) cs]
      rw [hdrop, hs, hts]
    · rw [hs]
      intro hnil
      have hlen := congrArg List.length hnil
      rw [List.length_take] at hlen
      simp only [List.length_nil] at hlen
      omega

theorem tsSuffixSplit_eq {cs s ts : List Char}
    (h : tsSuffixSplit cs = some (s, ts)) :
    cs = s ++ '.' :: ts ∧ s ≠ [] := by
  rw [tsSuffixSplit] at h
  cases h13 : trySplit 13 pat13 cs with
  | some r =>
    obtain ⟨s', ts'⟩ := r
    rw [h13] at h
    have h1 : some (s', ts') = some (s, ts) := h
    injection h1 with h2
    obtain ⟨rfl, rfl⟩ := Prod.mk.injEq _ _ _ _ |>.mp h2
    exact trySplit_eq h13
  | none =>
    rw [h13] at h
    exact trySplit_eq h

theorem decodeEntry_data {f : String} {p : String × String}
    (h : decodeEntry f = some p) :
    f.data = p.1.data ++ '.' :: p.2.data := by
  rw [decodeEntry] at h
  split at h
  case isTrue => exact absurd h (by simp)
  case isFalse =>
    cases hsp : tsSuffixSplit f.data with
    | none =>
      rw [hsp] at h
      exact absurd h (by simp)
    | some r =>
      obtain ⟨s, ts⟩ := r
      rw [hsp] at h
      have h' : (if validTs ts = true then
          some (String.mk s, String.mk ts) else none) = some p := h
      split at h'
      · injection h' with h1
        rw [← h1]
        exact (tsSuffixSplit_eq hsp).1
      · exact absurd h' (by simp)

theorem decodeEntry_inj (f₁ f₂ : String) (p : String × String)
    (h₁ : decodeEntry f₁ = some p) (h₂ : decodeEntry f₂ = some p) :
    f₁ = f₂ := by
  have e₁ := decodeEntry_data h₁
  have e₂ := decodeEntry_data h₂
  cases f₁
  cases f₂
  simp only at e₁ e₂
  rw [e₁, e₂]

theorem dedupF_subset_aux (n : Nat) :
    ∀ l : List String, l.length ≤ n → dedupF l ⊆ l := by
  induction n with
  | zero =>
    intro l hl
    rw [List.length_eq_zero.mp (Nat.le_zero.mp hl), dedupF]
    exact fun x hx => hx
  | succ n ih =>
    intro l hl
    cases l with
    | nil => rw [dedupF]; exact fun x hx => hx
    | cons x xs =>
      rw [dedupF]
      intro y hy
      rcases List.mem_cons.mp hy with rfl | hy2
      · exact List.mem_cons.mpr (Or.inl rfl)
      · have hlen : (xs.filter (fun y => decide (y ≠ x))).length ≤ n := by
          have := List.length_filter_le (fun y => decide (y ≠ x)) xs
          rw [List.length_cons] at hl
          omega
        exact List.mem_cons.mpr
          (Or.inr (List.filter_subset' _ (ih _ hlen hy2)))

theorem dedupF_subset (l : List String) : dedupF l ⊆ l :=
  dedupF_subset_aux l.length l le_rfl

theorem dedupF_nodup_aux (n : Nat) :
    ∀ l : List String, l.length ≤ n → (dedupF l).Nodup := by
  induction n with
  | zero =>
    intro l hl
    rw [List.length_eq_zero.mp (Nat.le_zero.mp hl), dedupF]
    exact List.nodup_nil
  | succ n ih =>
    intro l hl
    cases l with
    | nil => rw [dedupF]; exact List.nodup_nil
    | cons x xs =>
      rw [dedupF, List.nodup_cons]
      have hlen : (xs.filter (fun y => decide (y ≠ x))).length ≤ n := by
        have := List.length_filter_le (fun y => decide (y ≠ x)) xs
        rw [List.length_cons] at hl
        omega
      refine ⟨?_, ih _ hlen⟩
      intro hx
      have hmem := dedupF_subset _ hx
      have := (List.mem_filter.mp hmem).2
      exact absurd rfl (of_decide_eq_true this)

theorem sorted_lt_of_le_nodup {l : List String}
    (hs : l.Sorted (· ≤ ·)) (hn : l.Nodup) : l.Sorted (· < ·) :=
  (hs.and hn).imp (fun h => lt_of_le_of_ne h.1 h.2)

theorem dedupF_nodup (l : List String) : (dedupF l).Nodup :=
  dedupF_nodup_aux l.length l le_rfl

/-- C7: for every directory listing (filenames pairwise distinct, being
entries of one directory), `build_snapshot_table` returns sessions sorted
by timestamp strictly ascending, each session's subvolume list sorted
strictly ascending (hence deduplicated) and non-empty, with every listed
subvolume arising from a directory entry that parses as
name + "." + valid timestamp; and a missing snapshot directory yields the
empty table rather than an error. -/
theorem build_snapshot_table_correct (fnames : List String)
    (hnd : fnames.Nodup) :
    build_snapshot_table false fnames = []
    ∧ ((build_snapshot_table true fnames).map Prod.fst).Sorted (· < ·)
    ∧ (∀ p ∈ build_snapshot_table true fnames,
        p.2.Sorted (· < ·) ∧ p.2 ≠ []
        ∧ ∀ s ∈ p.2, ∃ f ∈ fnames, decodeEntry f = some (s, p.1)) := by
  have hparsedNodup : (fnames.filterMap decodeEntry).Nodup :=
    hnd.filterMap (fun a a' b hb hb' =>
      decodeEntry_inj a a' b (Option.mem_def.mp hb) (Option.mem_def.mp hb'))
  refine ⟨rfl, ?_, ?_⟩
  · rw [build_snapshot_table, if_pos rfl]
    have hmapfst :
        ((List.insertionSort (· ≤ ·)
            (dedupF ((fnames.filterMap decodeEntry).map Prod.snd))).map
          (fun ts => (ts, List.insertionSort (· ≤ ·)
            ((fnames.filterMap decodeEntry).filterMap
              (fun p => if p.2 = ts then some p.1 else none))))).map Prod.fst
          = List.insertionSort (· ≤ ·)
            (dedupF ((fnames.filterMap decodeEntry).map Prod.snd)) := by
      rw [List.map_map]
      exact List.map_id' _
    rw [hmapfst]
    exact sorted_lt_of_le_nodup
      (List.sorted_insertionSort _ _)
      ((List.perm_insertionSort _ _).nodup_iff.mpr (dedupF_nodup _))
  · intro p hp
    rw [build_snapshot_table, if_pos rfl] at hp
    obtain ⟨ts, hts, rfl⟩ := List.mem_map.mp hp
    have hkey : ts ∈ dedupF ((fnames.filterMap decodeEntry).map Prod.snd) :=
      (List.perm_insertionSort _ _).mem_iff.mp hts
    have hgrpNodup : ((fnames.filterMap decodeEntry).filterMap
        (fun q => if q.2 = ts then some q.1 else none)).Nodup := by
      refine hparsedNodup.filterMap (fun q q' s hs hs' => ?_)
      have hq : q = (s, ts) := by
        rw [Option.mem_def] at hs
        split at hs
        · rename_i hqe
          injection hs with hs1
          exact Prod.ext hs1 hqe
        · exact absurd hs (by simp)
      have hq' : q' = (s, ts) := by
        rw [Option.mem_def] at hs'
        split at hs'
        · rename_i hqe
          injection hs' with hs1
          exact Prod.ext hs1 hqe
        · exact absurd hs' (by simp)
      rw [hq, hq']
    refine ⟨?_, ?_, ?_⟩
    · exact sorted_lt_of_le_nodup (List.sorted_insertionSort _ _)
        ((List.perm_insertionSort _ _).nodup_iff.mpr hgrpNodup)
    · have hmap := dedupF_subset _ hkey
      obtain ⟨q, hqp, hq2⟩ := List.mem_map.mp hmap
      have hmem : q.1 ∈ (fnames.filterMap decodeEntry).filterMap
          (fun q => if q.2 = ts then some q.1 else none) :=
        List.mem_filterMap.mpr ⟨q, hqp, by rw [if_pos hq2]⟩
      exact List.ne_nil_of_mem
        ((List.perm_insertionSort _ _).mem_iff.mpr hmem)
    · intro s hs
      have hsgrp := (List.perm_insertionSort _ _).mem_iff.mp hs
      obtain ⟨q, hqp, hq⟩ := List.mem_filterMap.mp hsgrp
      have hq2 : q = (s, ts) := by
        split at hq
        · rename_i hqe
          injection hq with hq1
          exact Prod.ext hq1 hqe
        · exact absurd hq (by simp)
      obtain ⟨f, hf, hdec⟩ := List.mem_filterMap.mp hqp
      exact ⟨f, hf, by rw [hdec, hq2]⟩

/-! ## Kernel backup tracker (src/bread/lib.py, prune_kernel_backups) -/

/-- The state read and written by `prune_kernel_backups`: the snapshot
directory listing, the (stripped) content of each marker file, and the
kernel-backup directory listing. -/
structure KernelPruneState where
  snapDirExists : Bool
  snapFiles : List String
  markerContent : String → String
  bootDirExists : Bool
  backups : List String

/-- `prune_kernel_backups` (lib.py).  Returns immediately when the
snapshot directory is missing.  First loop: collect the `live_timestamps`
from every listing entry matching `^.+\.(\d8T(\d6|\d4))$` — note that
this loop, unlike `build_snapshot_table`, has no dotfile skip, so a
marker name `.kernel.<ts>` itself matches the regex (stem `.kernel`).
Second loop: remove each `.kernel.*` marker whose timestamp is not live
and read the content of the surviving ones into `referenced`.  Third
loop (skipped when the backup directory is missing): delete every backup
whose version is not referenced. -/
def prune_kernel_backups (st : KernelPruneState) : KernelPruneState :=
  if st.snapDirExists then
    let live := st.snapFiles.filterMap
      (fun f => (tsSuffixSplit f.data).map (fun r => String.mk r.2))
    let keptFiles := st.snapFiles.filter
      (fun f => !(".kernel.".data.isPrefixOf f.data
        && decide (String.mk (f.data.drop 8) ∉ live)))
    let referenced := st.snapFiles.filterMap
      (fun f => if ".kernel.".data.isPrefixOf f.data
          && decide (String.mk (f.data.drop 8) ∈ live) then
          some (st.markerContent f)
        else none)
    if st.bootDirExists then
      { st with snapFiles := keptFiles,
                backups := st.backups.filter (fun v => decide (v ∈ referenced)) }
    else
      { st with snapFiles := keptFiles }
  else st

/-- A snapshot-directory state in which every snapshot entry of the
session `20240101T120000` has been deleted: only the session's kernel
marker (content `6.1.0`) remains, and the backup record `6.1.0` exists. -/
def orphanMarkerState : KernelPruneState where
  snapDirExists := true
  snapFiles := [".kernel.20240101T120000"]
  markerContent := fun _ => "6.1.0"
  bootDirExists := true
  backups := ["6.1.0"]

/-- C1: `prune_kernel_backups` fails to reclaim orphans.  With no snapshot
entries left for timestamp `20240101T120000`, the claim (and the
function's own docstring) say the orphaned marker and then the
unreferenced backup `6.1.0` are removed; but the live-timestamp regex
also matches the marker filename itself, so the marker keeps its own
timestamp live and both survive unchanged. -/
theorem prune_kernel_backups_keeps_orphan :
    (prune_kernel_backups orphanMarkerState).snapFiles
        = [".kernel.20240101T120000"]
    ∧ (prune_kernel_backups orphanMarkerState).backups = ["6.1.0"] := by
  constructor <;> rfl

/-! ## Snapshot cycle (src/bread/cli/snapshot.py, main) -/

/-- Python runtime errors observable in the embedding. -/
inductive PyErr where
  | attributeError
deriving DecidableEq, Repr

/-- `lib.clear_old_buffer` as called by `snapshot.main` (snapshot.py line
115): no function of this name is defined anywhere in the repository
(lib.py has no `clear_old_buffer`), so in Python the attribute lookup on
the `lib` module raises `AttributeError` as soon as the statement runs. -/
def clear_old_buffer : Except PyErr Unit :=
  Except.error PyErr.attributeError

/-- The batch snapshot cycle `main` (snapshot.py lines 112-135), after
configuration loading: it evaluates `lib.clear_old_buffer()` first, with
no enclosing try/except, and only afterwards would run the per-subvolume
snapshot/prune loop, the kernel backup and marker write, the kernel
backup prune, and the final created/pruned/errors report — the entire
remainder is abstracted as its would-be outcome `rest`, universally
quantified in the theorem below. -/
def snapshot_cycle_main (rest : Except PyErr (Nat × Nat × Nat)) :
    Except PyErr (Nat × Nat × Nat) :=
  clear_old_buffer.bind (fun _ => rest)

/-- C2: the batch snapshot cycle never reaches its per-subvolume loop or
its terminal count report: whatever the configuration and filesystem
state (i.e. whatever the rest of the cycle would produce), the call to
the undefined `lib.clear_old_buffer` raises `AttributeError` first. -/
theorem snapshot_cycle_always_raises (rest : Except PyErr (Nat × Nat × Nat)) :
    snapshot_cycle_main rest = Except.error PyErr.attributeError := rfl

/-! ## Rollback / revert engine (src/bread/cli/rollback.py, revert.py)

Subvolume contents are abstract values of a type `γ`; a directory is an
association list from entry name to content, in listing order.  External
`btrfs` deletions can fail, which the code observes as a raised
`CalledProcessError` (`run_cmd` uses `check=True` here); the possible
failures are supplied as an oracle `delFail`.  `grubby` and `sync` are
modelled as always succeeding. -/

/-- Association-list lookup: content at a directory entry, `none` when
the path does not exist. -/
def aget {κ γ : Type} [DecidableEq κ] : List (κ × γ) → κ → Option γ
  | [], _ => none
  | (k', v) :: rest, k => if k' = k then some v else aget rest k

/-- Remove a directory entry (e.g. `os.rename` away, or deletion). -/
def aremove {γ : Type} (l : List (String × γ)) (k : String) :
    List (String × γ) :=
  l.filter (fun p => decide (p.1 ≠ k))

/-- Replace the content at an existing entry name in place. -/
def aupdate {γ : Type} (l : List (String × γ)) (k : String) (v : γ) :
    List (String × γ) :=
  l.map (fun p => if p.1 = k then (k, v) else p)

/-- Failure modes of rollback/revert; each corresponds to a `sys.exit` or
an uncaught exception in the Python code. -/
inductive RbErr where
  | kernelUnrestorable (ver : String)
  | deleteFailed (item : String)
  | renameFailed (sub : String)
  | snapshotFailed (sub : String)
  | fstabUnsafe
  | noUndoBuffer
  | undoEmpty
deriving DecidableEq, Repr

/-- Filesystem and boot state seen by rollback and revert: the live
subvolumes at the mount point, the undo buffer `old/` (existence flag and
contents), the archived snapshots keyed by (subvolume, timestamp), the
kernel markers keyed by timestamp, the kernel-backup versions, the kernel
versions present in /boot, the restored-kernel marker, the boot-loader
default, and the printed log lines that the theorems inspect. -/
structure RbState (γ : Type) where
  live : List (String × γ)
  oldDirExists : Bool
  old : List (String × γ)
  snaps : List ((String × String) × γ)
  markers : List (String × String)
  backups : List String
  bootKernels : List String
  restoredMarker : Option String
  grubDefault : Option String
  log : List String
deriving DecidableEq

/-- `snapshot_kernel_version` (lib.py): the marker content for `ts`, or
`none` when no marker file exists. -/
def snapshot_kernel_version {γ : Type} (st : RbState γ) (ts : String) :
    Option String :=
  aget st.markers ts

/-- `_clean_previous_restore` (lib.py): when a restored-kernel marker
exists, is non-empty, and that kernel is present in /boot, remove its
files from /boot. -/
def clean_previous_restore {γ : Type} (st : RbState γ) : RbState γ :=
  match st.restoredMarker with
  | none => st
  | some prev =>
    if prev ≠ "" ∧ prev ∈ st.bootKernels then
      { st with
        bootKernels := st.bootKernels.filter (fun v => decide (v ≠ prev)) }
    else st

/-- `restore_kernel` (lib.py): returns `False` (with nothing changed)
when no backup record exists for `ver`; otherwise removes the previously
restored kernel, then copies the backup into /boot unless the version is
already present — updating or clearing the restored-kernel marker
accordingly — and finally sets the boot default. -/
def restore_kernel {γ : Type} (st : RbState γ) (ver : String) :
    Bool × RbState γ :=
  if ver ∈ st.backups then
    let st1 := clean_previous_restore st
    let st2 :=
      if ver ∈ st1.bootKernels then { st1 with restoredMarker := none }
      else { st1 with bootKernels := ver :: st1.bootKernels,
                      restoredMarker := some ver }
    (true, { st2 with grubDefault := some ver })
  else (false, st)

/-- The undo-buffer deletion loop of `execute_rollback` (rollback.py lines
106-110): each item is deleted through `run_cmd` with `check=True`, so the
first failing `btrfs subvolume delete` raises, leaving the failed item and
every not-yet-visited item in place. -/
def deleteOldItems {γ : Type} (delFail : String → Bool) :
    List (String × γ) → Except (String × List (String × γ)) Unit
  | [] => Except.ok ()
  | (n, c) :: rest =>
    if delFail n then Except.error (n, (n, c) :: rest)
    else deleteOldItems delFail rest

/-- The clear-undo-buffer step of `execute_rollback` (rollback.py lines
105-112): when `old/` exists, delete its contents (fail-fast, see
`deleteOldItems`); otherwise create the directory. -/
def clearOldBuffer {γ : Type} (delFail : String → Bool) (st : RbState γ) :
    Except (RbErr × RbState γ) (RbState γ) :=
  if st.oldDirExists then
    match deleteOldItems delFail st.old with
    | Except.ok _ => Except.ok { st with old := [] }
    | Except.error e =>
      Except.error (RbErr.deleteFailed e.1, { st with old := e.2 })
  else Except.ok { st with oldDirExists := true }

/-- One subvolume swap of `execute_rollback` (rollback.py lines 114-122):
`os.rename` the live subvolume into `old/` (raises if the live path is
missing), then `btrfs subvolume snapshot` the archived entry back to the
live path as a writable copy (`run_cmd` raises when the archived entry
is absent, leaving the subvolume renamed away — the known mid-swap
inconsistency). -/
def swapOne {γ : Type} (ts : String) (st : RbState γ) (sub : String) :
    Except (RbErr × RbState γ) (RbState γ) :=
  match aget st.live sub with
  | none => Except.error (RbErr.renameFailed sub, st)
  | some x =>
    let st1 := { st with live := aremove st.live sub,
                         old := st.old ++ [(sub, x)] }
    match aget st1.snaps (sub, ts) with
    | none => Except.error (RbErr.snapshotFailed sub, st1)
    | some y =>
      Except.ok { st1 with live := st1.live ++ [(sub, y)] }

/-- The swap loop of `execute_rollback` over the plan's subvolumes. -/
def swapAll {γ : Type} (ts : String) (plan : List String) (st : RbState γ) :
    Except (RbErr × RbState γ) (RbState γ) :=
  match plan with
  | [] => Except.ok st
  | sub :: rest => (swapOne ts st sub).bind (swapAll ts rest)

/-- The warning printed when a session has no kernel marker. -/
def warnNoMarker : String :=
  "Warning: no kernel marker for this snapshot"

/-- The undo-buffer clearing and swap phases of `execute_rollback`
(everything after the kernel gate). -/
def rollback_phase2 {γ : Type} (delFail : String → Bool) (ts : String)
    (plan : List String) (st : RbState γ) :
    Except (RbErr × RbState γ) (RbState γ) :=
  (clearOldBuffer delFail st).bind (swapAll ts plan)

/-- `execute_rollback` (rollback.py lines 93-125): resolve the kernel
marker for the session; a present truthy (non-empty) version must restore
successfully or the whole run exits before anything else is touched; an
absent or empty marker produces a warning instead.  Then the undo buffer
is cleared and each planned subvolume is swapped.  The final `sync` and
the progress prints do not change the modelled state; only the no-marker
warning is logged because a theorem inspects it. -/
def execute_rollback {γ : Type} (delFail : String → Bool) (ts : String)
    (plan : List String) (st : RbState γ) :
    Except (RbErr × RbState γ) (RbState γ) :=
  match aget st.markers ts with
  | some ver =>
    if ver = "" then
      rollback_phase2 delFail ts plan
        { st with log := st.log ++ [warnNoMarker] }
    else
      match restore_kernel st ver with
      | (false, st') => Except.error (RbErr.kernelUnrestorable ver, st')
      | (true, st') => rollback_phase2 delFail ts plan st'
  | none =>
    rollback_phase2 delFail ts plan
      { st with log := st.log ++ [warnNoMarker] }

/-- One rotation of `revert.main` (revert.py lines 36-44):
`os.rename(live, temp)` (raises when the live path is missing), then
`os.rename(old, live)`, then `os.rename(temp, old)` — net effect: the
live and the held subvolume exchange places.  The middle rename cannot
fail for a name taken from the `old/` listing, and the final rename's
target was just vacated. -/
def revert_swap_one {γ : Type} (st : RbState γ) (sub : String) :
    Except (RbErr × RbState γ) (RbState γ) :=
  match aget st.live sub with
  | none => Except.error (RbErr.renameFailed sub, st)
  | some l =>
    match aget st.old sub with
    | none =>
      Except.error (RbErr.renameFailed sub,
        { st with live := aremove st.live sub })
    | some o =>
      Except.ok { st with live := aupdate st.live sub o,
                          old := aupdate st.old sub l }

/-- The rotation loop of `revert.main` over the held subvolumes. -/
def revertAll {γ : Type} (subs : List String) (st : RbState γ) :
    Except (RbErr × RbState γ) (RbState γ) :=
  match subs with
  | [] => Except.ok st
  | sub :: rest => (revert_swap_one st sub).bind (revertAll rest)

/-- `revert.main` core (revert.py lines 19-44, after the guards shared
with rollback): require the undo directory to exist and to hold at least
one subvolume, then rotate each held subvolume with its live counterpart.
Every `old/` entry is a subvolume here, having been renamed from a live
subvolume by a rollback, so `to_revert` is the whole listing. -/
def revert_main {γ : Type} (st : RbState γ) :
    Except (RbErr × RbState γ) (RbState γ) :=
  if st.oldDirExists then
    match st.old with
    | [] => Except.error (RbErr.undoEmpty, st)
    | _ :: _ => revertAll (st.old.map Prod.fst) st
  else Except.error (RbErr.noUndoBuffer, st)

/-! ## Safety guard (src/bread/lib.py, check_fstab_safety) -/

/-- Substring containment, Python's `in` operator on strings. -/
def hasInfix (needle : List Char) : List Char → Bool
  | [] => needle.isEmpty
  | c :: t => needle.isPrefixOf (c :: t) || hasInfix needle t

/-- Python's `line.strip().startswith("#")` (leading whitespace is what
matters for `startswith`). -/
def strippedStartsHash (l : String) : Bool :=
  match l.data.dropWhile (fun c =>
      c == ' ' || c == '\t' || c == '\n' || c == '\r' || c == '\x0b'
        || c == '\x0c') with
  | [] => false
  | c :: _ => c == '#'

/-- A line is flagged iff it contains `"btrfs"` and `"subvolid="` and its
stripped form is not a comment. -/
def fstab_line_issue (l : String) : Bool :=
  hasInfix "btrfs".data l.data && hasInfix "subvolid=".data l.data
    && !(strippedStartsHash l)

/-- Python `str.lower()` (ASCII suffices for the `y` comparison). -/
def strLower (s : String) : String := String.mk (s.data.map Char.toLower)

/-- `check_fstab_safety` (lib.py lines 56-76).  `fstab` holds the file's
lines, or `none` when `/etc/fstab` cannot be opened — the `except` clause
then leaves `issues` empty.  Returns whether the operation may proceed:
with no issues, always (and silently); with issues, never in a
non-interactive run, and interactively only when the user answers `y`. -/
def check_fstab_safety (fstab : Option (List String)) (interactive : Bool)
    (answer : String) : Bool :=
  let issues := match fstab with
    | none => []
    | some lines => lines.filter fstab_line_issue
  match issues with
  | [] => true
  | _ :: _ => if interactive then strLower answer == "y" else false

/-- The gate of `rollback.main` (rollback.py lines 139-142 and 172): the
fstab guard runs with `interactive = not --yes`, before the snapshot
table is built and before `execute_rollback`; a refusal is a `sys.exit`
with the filesystem untouched.  (`revert.main` lines 14-17 run the same
guard the same way before touching anything.) -/
def rollback_guarded {γ : Type} (yes : Bool) (fstab : Option (List String))
    (answer : String) (delFail : String → Bool) (ts : String)
    (plan : List String) (st : RbState γ) :
    Except (RbErr × RbState γ) (RbState γ) :=
  if check_fstab_safety fstab (!yes) answer then
    execute_rollback delFail ts plan st
  else Except.error (RbErr.fstabUnsafe, st)

theorem aget_append_right {κ γ : Type} [DecidableEq κ]
    (l₁ l₂ : List (κ × γ)) (k : κ) (h : aget l₁ k = none) :
    aget (l₁ ++ l₂) k = aget l₂ k := by
  induction l₁ with
  | nil => rfl
  | cons p rest ih =>
    obtain ⟨k', v⟩ := p
    rw [aget] at h
    rw [List.cons_append, aget]
    by_cases hk : k' = k
    · rw [if_pos hk] at h
      exact absurd h (by simp)
    · rw [if_neg hk] at h
      rw [if_neg hk]
      exact ih h

theorem aget_aremove_self {γ : Type} (l : List (String × γ)) (k : String) :
    aget (aremove l k) k = none := by
  induction l with
  | nil => rfl
  | cons p rest ih =>
    obtain ⟨k', v⟩ := p
    rw [aremove, List.filter_cons]
    by_cases hk : k' = k
    · rw [if_neg (by simp [hk])]
      exact ih
    · rw [if_pos (by simp [hk]), aget, if_neg hk]
      exact ih

theorem aget_singleton {γ : Type} (k : String) (v : γ) :
    aget [(k, v)] k = some v := by
  rw [aget, if_pos rfl]

theorem aget_aupdate {γ : Type} (l : List (String × γ)) (k : String) (v : γ) :
    aget (aupdate l k v) k = (aget l k).map (fun _ => v) := by
  induction l with
  | nil => rfl
  | cons p rest ih =>
    obtain ⟨k', w⟩ := p
    rw [aupdate, List.map_cons]
    by_cases hk : k' = k
    · rw [if_pos hk, aget, if_pos rfl, aget, if_pos hk]
      rfl
    · rw [if_neg hk, aget, if_neg hk, aget, if_neg hk]
      exact ih

theorem aupdate_singleton {γ : Type} (k : String) (v w : γ) :
    aupdate [(k, v)] k w = [(k, w)] := by
  rw [aupdate, List.map_cons, if_pos rfl, List.map_nil]

theorem deleteOldItems_ok {γ : Type} (delFail : String → Bool) :
    ∀ (items : List (String × γ)), (∀ i ∈ items, delFail i.1 = false) →
    deleteOldItems delFail items = Except.ok () := by
  intro items
  induction items with
  | nil => intro _; rfl
  | cons p rest ih =>
    intro h
    obtain ⟨n, c⟩ := p
    rw [deleteOldItems, if_neg]
    · exact ih (fun i hi => h i (List.mem_cons.mpr (Or.inr hi)))
    · rw [h (n, c) (List.mem_cons.mpr (Or.inl rfl))]
      exact Bool.false_ne_true

theorem deleteOldItems_fail {γ : Type} (delFail : String → Bool)
    (n : String) (c : γ) (post : List (String × γ)) :
    ∀ (pre : List (String × γ)), (∀ i ∈ pre, delFail i.1 = false) →
    delFail n = true →
    deleteOldItems delFail (pre ++ (n, c) :: post)
      = Except.error (n, (n, c) :: post) := by
  intro pre
  induction pre with
  | nil =>
    intro _ hn
    rw [List.nil_append, deleteOldItems, if_pos hn]
  | cons p rest ih =>
    intro h hn
    obtain ⟨m, d⟩ := p
    rw [List.cons_append, deleteOldItems, if_neg]
    · exact ih (fun i hi => h i (List.mem_cons.mpr (Or.inr hi))) hn
    · rw [h (m, d) (List.mem_cons.mpr (Or.inl rfl))]
      exact Bool.false_ne_true

/-- C3: when the target session has a kernel marker whose version has no
backup record, `execute_rollback` exits with the whole state — live
subvolumes and undo buffer included — exactly as it was, before the
buffer-clear and swap phases; when the session has no marker, the
rollback proceeds to those phases with a warning logged. -/
theorem rollback_kernel_gate {γ : Type} (delFail : String → Bool)
    (ts : String) (plan : List String) (st : RbState γ) :
    (∀ v, aget st.markers ts = some v → v ≠ "" → v ∉ st.backups →
      execute_rollback delFail ts plan st
        = Except.error (RbErr.kernelUnrestorable v, st))
    ∧ (aget st.markers ts = none →
      execute_rollback delFail ts plan st
        = rollback_phase2 delFail ts plan
            { st with log := st.log ++ [warnNoMarker] }) := by
  constructor
  · intro v hv hne hnb
    simp only [execute_rollback, hv]
    rw [if_neg hne, restore_kernel, if_neg hnb]
  · intro hn
    simp only [execute_rollback, hn]

/-- A state whose session `20240101T120000` carries the kernel marker
`6.1.0` while no backup record exists. -/
def kernelGateStA : RbState Nat where
  live := [("root", 1)]
  oldDirExists := true
  old := []
  snaps := [(("root", "20240101T120000"), 5)]
  markers := [("20240101T120000", "6.1.0")]
  backups := []
  bootKernels := []
  restoredMarker := none
  grubDefault := none
  log := []

/-- The same state with no kernel marker for the session. -/
def kernelGateStB : RbState Nat :=
  { kernelGateStA with markers := [] }

theorem rollback_kernel_gate_witness :
    execute_rollback (fun _ => false) "20240101T120000" ["root"]
        kernelGateStA
      = Except.error (RbErr.kernelUnrestorable "6.1.0", kernelGateStA)
    ∧ execute_rollback (fun _ => false) "20240101T120000" ["root"]
        kernelGateStB
      = rollback_phase2 (fun _ => false) "20240101T120000" ["root"]
          { kernelGateStB with log := kernelGateStB.log ++ [warnNoMarker] } :=
  ⟨(rollback_kernel_gate (fun _ => false) "20240101T120000" ["root"]
      kernelGateStA).1 "6.1.0" (by decide) (by decide) (by decide),
   (rollback_kernel_gate (fun _ => false) "20240101T120000" ["root"]
      kernelGateStB).2 (by decide)⟩

/-- C10: when the mount-configuration file cannot be read (missing or
unreadable, modelled as `none`), the guard reports no issues and the
rollback proceeds as if the guard were absent, whatever the
interactivity and whatever answer the user would have given. -/
theorem fstab_unreadable_silently_permits {γ : Type} (interactive : Bool)
    (answer : String) (yes : Bool) (delFail : String → Bool) (ts : String)
    (plan : List String) (st : RbState γ) :
    check_fstab_safety none interactive answer = true
    ∧ rollback_guarded yes none answer delFail ts plan st
        = execute_rollback delFail ts plan st := by
  refine ⟨rfl, ?_⟩
  rw [rollback_guarded,
    if_pos (show check_fstab_safety none (!yes) answer = true from rfl)]

/-- C9: a non-comment fstab line mounting btrfs by `subvolid=` makes the
non-interactive guard refuse unconditionally — so a `--yes` rollback
exits with the filesystem untouched, before any subvolume is renamed —
while the interactive guard proceeds exactly when the user's answer
lowercases to `y`. -/
theorem fstab_guard_blocks {γ : Type} (lines : List String) (l : String)
    (answer : String) (delFail : String → Bool) (ts : String)
    (plan : List String) (st : RbState γ)
    (hl : l ∈ lines) (hiss : fstab_line_issue l = true) :
    check_fstab_safety (some lines) false answer = false
    ∧ rollback_guarded true (some lines) answer delFail ts plan st
        = Except.error (RbErr.fstabUnsafe, st)
    ∧ check_fstab_safety (some lines) true answer
        = (strLower answer == "y") := by
  have hmem : l ∈ lines.filter fstab_line_issue :=
    List.mem_filter.mpr ⟨hl, hiss⟩
  have hfalse : check_fstab_safety (some lines) false answer = false := by
    rw [check_fstab_safety]
    cases hf : lines.filter fstab_line_issue with
    | nil => rw [hf] at hmem; exact absurd hmem (List.not_mem_nil l)
    | cons a rest => simp
  refine ⟨hfalse, ?_, ?_⟩
  · rw [rollback_guarded, if_neg]
    rw [Bool.not_true, hfalse]
    exact Bool.false_ne_true
  · rw [check_fstab_safety]
    cases hf : lines.filter fstab_line_issue with
    | nil => rw [hf] at hmem; exact absurd hmem (List.not_mem_nil l)
    | cons a rest => simp

/-- A realistic fstab line that mounts a btrfs filesystem by subvolume
id. -/
def badFstabLine : String :=
  "UUID=abcd / btrfs subvolid=256,compress=zstd 0 0"

theorem fstab_guard_blocks_witness :
    check_fstab_safety (some [badFstabLine]) false "y" = false
    ∧ rollback_guarded true (some [badFstabLine]) "y" (fun _ => false)
        "20240101T120000" ["root"] kernelGateStA
        = Except.error (RbErr.fstabUnsafe, kernelGateStA)
    ∧ check_fstab_safety (some [badFstabLine]) true "y"
        = (strLower "y" == "y") :=
  fstab_guard_blocks [badFstabLine] badFstabLine "y" (fun _ => false)
    "20240101T120000" ["root"] kernelGateStA (by decide) (by decide)

/-- An undo buffer holding two subvolumes, of which only the first fails
to delete. -/
def bufStC8 : RbState Nat where
  live := []
  oldDirExists := true
  old := [("a", 0), ("b", 0)]
  snaps := []
  markers := []
  backups := []
  bootKernels := []
  restoredMarker := none
  grubDefault := none
  log := []

/-- Deletion failure oracle: only subvolume `a` fails to delete. -/
def delFailC8 : String → Bool := fun s => s == "a"

/-- C8 counterexample: clearing the undo buffer is not best-effort.  With
held subvolumes `a` and `b` where only `a`'s deletion fails, the claim
says `b`'s deletion still proceeds and the buffer afterwards exists and
is empty; in fact `run_cmd`'s `check=True` re-raises at `a`, the clear
step aborts the rollback, `b` is never deleted and the buffer still
holds both subvolumes. -/
theorem clear_buffer_not_best_effort :
    clearOldBuffer delFailC8 bufStC8
      = Except.error (RbErr.deleteFailed "a", bufStC8)
    ∧ delFailC8 "b" = false
    ∧ ¬ ∃ st' : RbState Nat,
        clearOldBuffer delFailC8 bufStC8 = Except.ok st' := by
  refine ⟨rfl, rfl, ?_⟩
  rintro ⟨st', h⟩
  have h0 : clearOldBuffer delFailC8 bufStC8
      = Except.error (RbErr.deleteFailed "a", bufStC8) := rfl
  rw [h0] at h
  exact Except.noConfusion h

/-- C8 amended: the undo-buffer clear deletes the held subvolumes in
listing order and is fail-fast — the first failing deletion aborts the
whole rollback with the failed and all following subvolumes still held —
while, when every deletion succeeds (or the directory is absent and is
created), the buffer afterwards exists and is empty. -/
theorem clear_buffer_fail_fast {γ : Type} (delFail : String → Bool)
    (st : RbState γ) :
    (∀ (pre post : List (String × γ)) (n : String) (c : γ),
      st.oldDirExists = true → st.old = pre ++ (n, c) :: post →
      (∀ i ∈ pre, delFail i.1 = false) → delFail n = true →
      clearOldBuffer delFail st
        = Except.error (RbErr.deleteFailed n,
            { st with old := (n, c) :: post }))
    ∧ ((∀ i ∈ st.old, delFail i.1 = false) →
      (st.oldDirExists = false → st.old = []) →
      ∃ st', clearOldBuffer delFail st = Except.ok st'
        ∧ st'.old = [] ∧ st'.oldDirExists = true) := by
  constructor
  · intro pre post n c hoe hold hpre hn
    rw [clearOldBuffer, if_pos hoe, hold,
      deleteOldItems_fail delFail n c post pre hpre hn]
  · intro hall hwf
    cases hoe : st.oldDirExists with
    | true =>
      refine ⟨{ st with old := [] }, ?_, rfl, hoe⟩
      rw [clearOldBuffer, if_pos hoe, deleteOldItems_ok delFail st.old hall]
    | false =>
      refine ⟨{ st with oldDirExists := true }, ?_, hwf hoe, rfl⟩
      rw [clearOldBuffer, if_neg (by rw [hoe]; exact Bool.false_ne_true)]

theorem clear_buffer_fail_fast_witness :
    clearOldBuffer delFailC8 bufStC8
      = Except.error (RbErr.deleteFailed "a",
          { bufStC8 with old := ("a", (0 : Nat)) :: [("b", 0)] })
    ∧ ∃ st', clearOldBuffer (fun _ => false) bufStC8 = Except.ok st'
        ∧ st'.old = [] ∧ st'.oldDirExists = true :=
  ⟨(clear_buffer_fail_fast delFailC8 bufStC8).1 [] [("b", 0)] "a" 0
      rfl rfl (by decide) (by decide),
   (clear_buffer_fail_fast (fun _ => false) bufStC8).2
      (by decide) (by decide)⟩

theorem clean_previous_restore_fields {γ : Type} (st : RbState γ) :
    (clean_previous_restore st).live = st.live
    ∧ (clean_previous_restore st).old = st.old
    ∧ (clean_previous_restore st).oldDirExists = st.oldDirExists
    ∧ (clean_previous_restore st).snaps = st.snaps := by
  cases hm : st.restoredMarker with
  | none => simp [clean_previous_restore, hm]
  | some p =>
    simp only [clean_previous_restore, hm]
    split_ifs <;> simp

theorem restore_kernel_fields {γ : Type} (st : RbState γ) (v : String) :
    ((restore_kernel st v).2).live = st.live
    ∧ ((restore_kernel st v).2).old = st.old
    ∧ ((restore_kernel st v).2).oldDirExists = st.oldDirExists
    ∧ ((restore_kernel st v).2).snaps = st.snaps := by
  obtain ⟨h1, h2, h3, h4⟩ := clean_previous_restore_fields st
  simp only [restore_kernel]
  split_ifs <;>
    first
      | exact ⟨h1, h2, h3, h4⟩
      | exact ⟨rfl, rfl, rfl, rfl⟩

theorem rollback_phase2_single {γ : Type} (delFail : String → Bool)
    (ts A : String) (x y : γ) (st : RbState γ)
    (hlive : aget st.live A = some x)
    (hsnap : aget st.snaps (A, ts) = some y)
    (hdel : ∀ i ∈ st.old, delFail i.1 = false)
    (hwf : st.oldDirExists = false → st.old = []) :
    rollback_phase2 delFail ts [A] st
      = Except.ok
          { st with
            oldDirExists := true
            old := [(A, x)]
            live := aremove st.live A ++ [(A, y)] } := by
  obtain ⟨live, ode, old, snaps, markers, backups, bk, rm, gd, log⟩ := st
  simp only at hlive hsnap hdel hwf
  rw [rollback_phase2]
  have hclear : clearOldBuffer delFail
      (RbState.mk live ode old snaps markers backups bk rm gd log)
      = Except.ok
        (RbState.mk live true [] snaps markers backups bk rm gd log) := by
    cases ode with
    | true =>
      rw [clearOldBuffer, if_pos rfl, deleteOldItems_ok delFail old hdel]
    | false =>
      rw [clearOldBuffer, if_neg (fun h => Bool.false_ne_true h),
        hwf rfl]
  rw [hclear]
  show swapAll ts [A]
      (RbState.mk live true [] snaps markers backups bk rm gd log) = _
  simp only [swapAll, swapOne, hlive, hsnap]
  simp only [List.nil_append]
  rfl

theorem revert_single {γ : Type} (st : RbState γ) (A : String) (lv ov : γ)
    (hod : st.oldDirExists = true) (hold : st.old = [(A, ov)])
    (hlv : aget st.live A = some lv) :
    revert_main st = Except.ok { st with live := aupdate st.live A ov,
                                         old := [(A, lv)] } := by
  obtain ⟨live, ode, old, snaps, markers, backups, bk, rm, gd, log⟩ := st
  simp only at hod hold hlv
  subst hod hold
  simp only [revert_main, if_pos rfl, List.map_cons, List.map_nil,
    revertAll, revert_swap_one, hlv, aget_singleton]
  simp only [aupdate_singleton]
  simp [Except.bind]

/-- C5: rollback-then-revert round trip.  For a live subvolume `A` with
content `x` and an archived session entry for `A` at `ts` with content
`y` — the kernel gate passing, the buffer clear succeeding — the
rollback leaves `A` live with `y` and the old buffer holding `x`; a
revert then restores `A` to `x` while the buffer holds `y` (the state as
of immediately after the rollback, not `x`); and a second revert undoes
the first, back to live `y`, buffer `x`. -/
theorem rollback_then_revert_roundtrip {γ : Type} (delFail : String → Bool)
    (ts A : String) (x y : γ) (st : RbState γ)
    (hlive : aget st.live A = some x)
    (hsnap : aget st.snaps (A, ts) = some y)
    (hgate : ∀ v, aget st.markers ts = some v → v = "" ∨ v ∈ st.backups)
    (hdel : ∀ i ∈ st.old, delFail i.1 = false)
    (hwf : st.oldDirExists = false → st.old = []) :
    ∃ st₁ st₂ st₃ : RbState γ,
      execute_rollback delFail ts [A] st = Except.ok st₁
      ∧ aget st₁.live A = some y ∧ st₁.old = [(A, x)]
      ∧ revert_main st₁ = Except.ok st₂
      ∧ aget st₂.live A = some x ∧ aget st₂.old A = some y
      ∧ revert_main st₂ = Except.ok st₃
      ∧ aget st₃.live A = some y ∧ aget st₃.old A = some x := by
  have hgatestep : ∃ st₀ : RbState γ,
      execute_rollback delFail ts [A] st
        = rollback_phase2 delFail ts [A] st₀
      ∧ st₀.live = st.live ∧ st₀.old = st.old
      ∧ st₀.oldDirExists = st.oldDirExists ∧ st₀.snaps = st.snaps := by
    cases hm : aget st.markers ts with
    | none =>
      exact ⟨{ st with log := st.log ++ [warnNoMarker] },
        (rollback_kernel_gate delFail ts [A] st).2 hm, rfl, rfl, rfl, rfl⟩
    | some v =>
      by_cases hve : v = ""
      · refine ⟨{ st with log := st.log ++ [warnNoMarker] }, ?_,
          rfl, rfl, rfl, rfl⟩
        simp only [execute_rollback, hm]
        rw [if_pos hve]
      · have hvb : v ∈ st.backups := (hgate v hm).resolve_left hve
        have hfst : (restore_kernel st v).1 = true := by
          rw [restore_kernel, if_pos hvb]
        obtain ⟨hf1, hf2, hf3, hf4⟩ := restore_kernel_fields st v
        refine ⟨(restore_kernel st v).2, ?_, hf1, hf2, hf3, hf4⟩
        simp only [execute_rollback, hm]
        rw [if_neg hve]
        have hrk : restore_kernel st v = (true, (restore_kernel st v).2) :=
          Prod.ext hfst rfl
        rw [hrk]
  obtain ⟨st₀, hexec, hpl, hpo, hpe, hps⟩ := hgatestep
  have hphase : rollback_phase2 delFail ts [A] st₀
      = Except.ok
          { st₀ with
            oldDirExists := true
            old := [(A, x)]
            live := aremove st₀.live A ++ [(A, y)] } :=
    rollback_phase2_single delFail ts A x y st₀
      (by rw [hpl]; exact hlive)
      (by rw [hps]; exact hsnap)
      (by rw [hpo]; exact hdel)
      (by rw [hpe, hpo]; exact hwf)
  have hl1 : aget (aremove st₀.live A ++ [(A, y)]) A = some y := by
    rw [aget_append_right _ _ _ (aget_aremove_self _ _), aget_singleton]
  have hl2 : aget (aupdate (aremove st₀.live A ++ [(A, y)]) A x) A
      = some x := by
    rw [aget_aupdate, hl1]
    rfl
  have hl3 : aget
      (aupdate (aupdate (aremove st₀.live A ++ [(A, y)]) A x) A y) A
      = some y := by
    rw [aget_aupdate, hl2]
    rfl
  have hrev1 := revert_single
    { st₀ with
      oldDirExists := true
      old := [(A, x)]
      live := aremove st₀.live A ++ [(A, y)] } A y x rfl rfl hl1
  have hrev2 := revert_single
    { { st₀ with
        oldDirExists := true
        old := [(A, x)]
        live := aremove st₀.live A ++ [(A, y)] } with
      live := aupdate (aremove st₀.live A ++ [(A, y)]) A x
      old := [(A, y)] } A x y rfl rfl hl2
  exact ⟨_, _, _, hexec.trans hphase, hl1, rfl, hrev1, hl2,
    aget_singleton A y, hrev2, hl3, aget_singleton A x⟩

/-- A concrete state for the round-trip witness: live `root` holds 10,
the archived session entry holds 20, no kernel marker. -/
def roundtripSt : RbState Nat where
  live := [("root", 10)]
  oldDirExists := true
  old := []
  snaps := [(("root", "20240101T120000"), 20)]
  markers := []
  backups := []
  bootKernels := []
  restoredMarker := none
  grubDefault := none
  log := []

theorem rollback_then_revert_roundtrip_witness :
    ∃ st₁ st₂ st₃ : RbState Nat,
      execute_rollback (fun _ => false) "20240101T120000" ["root"]
          roundtripSt = Except.ok st₁
      ∧ aget st₁.live "root" = some 20 ∧ st₁.old = [("root", 10)]
      ∧ revert_main st₁ = Except.ok st₂
      ∧ aget st₂.live "root" = some 10 ∧ aget st₂.old "root" = some 20
      ∧ revert_main st₂ = Except.ok st₃
      ∧ aget st₃.live "root" = some 20 ∧ aget st₃.old "root" = some 10 :=
  rollback_then_revert_roundtrip (fun _ => false) "20240101T120000" "root"
    10 20 roundtripSt (by decide) (by decide)
    (fun v h => Option.noConfusion h)
    (fun i hi => absurd hi (List.not_mem_nil i))
    (by decide)

/-- A two-entry newest-first history for the idempotence witness. -/
def snapsC6 : List Snap :=
  [(DT.mk 2024 1 2 12 0 0, "root.20240102T120000"),
   (DT.mk 2024 1 1 12 0 0, "root.20240101T120000")]

theorem prune_snapshots_idempotent_witness :
    evicted (Retention.mk 1 0 0 0)
        (afterPrune (Retention.mk 1 0 0 0) snapsC6) = [] :=
  prune_snapshots_idempotent (Retention.mk 1 0 0 0) snapsC6 (by decide)

/-- A directory listing for the table-builder witness: two well-formed
entries of one session, an older entry, a malformed name and a kernel
marker. -/
def fnamesC7 : List String :=
  ["root.20240101T120000", "home.20240101T120000",
   "root.20230501T0800", "junk.txt", ".kernel.20240101T120000"]

theorem build_snapshot_table_correct_witness :
    build_snapshot_table false fnamesC7 = []
    ∧ ((build_snapshot_table true fnamesC7).map Prod.fst).Sorted (· < ·)
    ∧ (∀ p ∈ build_snapshot_table true fnamesC7,
        p.2.Sorted (· < ·) ∧ p.2 ≠ []
        ∧ ∀ s ∈ p.2, ∃ f ∈ fnamesC7, decodeEntry f = some (s, p.1)) :=
  build_snapshot_table_correct fnamesC7 (by decide)

end Bread
